import Mathlib

/-!
Shallow embedding of the tglc library (tglc/tglc.py): the classes Header,
Line and File for 2G magnetometer tab-separated data files, together with
the assemble_sections procedure, and proofs about them.

Modelling conventions.

Python floats are modelled as exact rationals rounded to 53 significant
bits (IEEE-754 binary64, round to nearest with ties to even, including the
subnormal range).  Overflow to infinity, NaN and the negative-zero value
are not modelled; the magnitudes handled by this program stay far below
the overflow threshold.  Python ints are modelled as unbounded integers,
which matches Python semantics exactly.  String-to-float conversion in
CPython is correctly rounded, so it is modelled as exact decimal parsing
followed by rounding; scientific notation is supported, while the exotic
spellings accepted by Python (surrounding whitespace, underscores between
digits, inf and nan) are left out, as are non-ASCII whitespace characters
in str.strip.

File input and output are modelled as lists of strings, one per line, with
the trailing newline removed; opening and closing the backing streams is
outside the embedding.  Exceptions raised by the Python code (KeyError,
IndexError, ValueError, AssertionError) are modelled with the Except
monad.  Python objects mutated in place are modelled by state passing; the
Header object shared between a File and its Lines is kept synchronised
explicitly at the two places where the source mutates it (fake_depth and
chop_fields).
-/

set_option maxRecDepth 40000

namespace Tglc

/-- Characters stripped by Python str.strip (the ASCII whitespace ones). -/
def pyWS (c : Char) : Bool :=
  c = ' ' || c = '\t' || c = '\n' || c = '\r' || c = Char.ofNat 11 || c = Char.ofNat 12

/-- Model of Python str.strip on a character list. -/
def pyStripChars (l : List Char) : List Char :=
  ((l.dropWhile pyWS).reverse.dropWhile pyWS).reverse

/-- Model of Python str.strip. -/
def pyStrip (s : String) : String :=
  String.mk (pyStripChars s.data)

/-- Model of Python str.split on a single tab: the empty string gives one
empty field, and every tab starts a new field. -/
def splitTabChars : List Char → List (List Char)
  | [] => [[]]
  | c :: cs =>
    if c = '\t' then [] :: splitTabChars cs
    else
      match splitTabChars cs with
      | [] => [[c]]
      | p :: ps => (c :: p) :: ps

/-- Python line.strip().split(tab), producing strings. -/
def pySplitStrip (s : String) : List String :=
  (splitTabChars (pyStripChars s.data)).map String.mk

/-- Python tab.join on character lists: the pieces separated by single
tabs. -/
def joinTabChars : List (List Char) → List Char
  | [] => []
  | [p] => p
  | p :: ps => p ++ '\t' :: joinTabChars ps

/-- Python tab.join(parts). -/
def joinTab (ps : List String) : String :=
  String.mk (joinTabChars (ps.map String.data))

/-!
Computable rational arithmetic.  The standard +, -, * and / on ℚ are
irreducible here, so the embedding uses equivalent mkRat-based operations
that the kernel can evaluate; the bridge lemmas below identify them with
the standard operations for use in algebraic reasoning.
-/

/-- Computable rational addition. -/
def qadd (a b : ℚ) : ℚ := mkRat (a.num * b.den + b.num * a.den) (a.den * b.den)

/-- Computable rational subtraction. -/
def qsub (a b : ℚ) : ℚ := mkRat (a.num * b.den - b.num * a.den) (a.den * b.den)

/-- Computable rational multiplication. -/
def qmul (a b : ℚ) : ℚ := mkRat (a.num * b.num) (a.den * b.den)

/-- Computable power of two with an integer exponent. -/
def qpow2 (e : ℤ) : ℚ := if 0 ≤ e then mkRat (2 ^ e.toNat) 1 else mkRat 1 (2 ^ (-e).toNat)

/-- Computable power of ten with an integer exponent. -/
def qpow10 (e : ℤ) : ℚ := if 0 ≤ e then mkRat (10 ^ e.toNat) 1 else mkRat 1 (10 ^ (-e).toNat)

/-- Computable rational absolute value. -/
def qabs (a : ℚ) : ℚ := if a < 0 then Rat.neg a else a

/-- Bridge: qadd is rational addition. -/
theorem qadd_eq (a b : ℚ) : qadd a b = a + b := by
  unfold qadd
  rw [Rat.mkRat_eq_div]
  conv_rhs => rw [← Rat.num_div_den a, ← Rat.num_div_den b]
  have ha : ((a.den : ℚ)) ≠ 0 := by exact_mod_cast a.den_nz
  have hb : ((b.den : ℚ)) ≠ 0 := by exact_mod_cast b.den_nz
  push_cast
  field_simp
  try ring

/-- Bridge: qsub is rational subtraction. -/
theorem qsub_eq (a b : ℚ) : qsub a b = a - b := by
  unfold qsub
  rw [Rat.mkRat_eq_div]
  conv_rhs => rw [← Rat.num_div_den a, ← Rat.num_div_den b]
  have ha : ((a.den : ℚ)) ≠ 0 := by exact_mod_cast a.den_nz
  have hb : ((b.den : ℚ)) ≠ 0 := by exact_mod_cast b.den_nz
  push_cast
  field_simp
  try ring

/-- Bridge: qmul is rational multiplication. -/
theorem qmul_eq (a b : ℚ) : qmul a b = a * b := by
  unfold qmul
  rw [Rat.mkRat_eq_div]
  conv_rhs => rw [← Rat.num_div_den a, ← Rat.num_div_den b]
  have ha : ((a.den : ℚ)) ≠ 0 := by exact_mod_cast a.den_nz
  have hb : ((b.den : ℚ)) ≠ 0 := by exact_mod_cast b.den_nz
  push_cast
  field_simp
  try ring

/-- Bridge: qpow2 is the integer power of two. -/
theorem qpow2_eq (e : ℤ) : qpow2 e = (2 : ℚ) ^ e := by
  unfold qpow2
  rcases le_or_lt 0 e with h | h
  · rw [if_pos h, Rat.mkRat_eq_div]
    push_cast
    rw [← zpow_natCast, Int.toNat_of_nonneg h]
    simp
  · rw [if_neg (not_le.mpr h), Rat.mkRat_eq_div]
    push_cast
    rw [← zpow_natCast, Int.toNat_of_nonneg (by omega : (0 : ℤ) ≤ -e)]
    rw [one_div, ← zpow_neg, neg_neg]

/-- Bridge: qpow10 is the integer power of ten. -/
theorem qpow10_eq (e : ℤ) : qpow10 e = (10 : ℚ) ^ e := by
  unfold qpow10
  rcases le_or_lt 0 e with h | h
  · rw [if_pos h, Rat.mkRat_eq_div]
    push_cast
    rw [← zpow_natCast, Int.toNat_of_nonneg h]
    simp
  · rw [if_neg (not_le.mpr h), Rat.mkRat_eq_div]
    push_cast
    rw [← zpow_natCast, Int.toNat_of_nonneg (by omega : (0 : ℤ) ≤ -e)]
    rw [one_div, ← zpow_neg, neg_neg]

/-- Bridge: Rat.neg is rational negation. -/
theorem qneg_eq (a : ℚ) : Rat.neg a = -a := rfl

/-- Bridge: qabs is the rational absolute value. -/
theorem qabs_eq (a : ℚ) : qabs a = |a| := by
  unfold qabs
  rcases lt_or_le a 0 with h | h
  · rw [if_pos h, qneg_eq, abs_of_neg h]
  · rw [if_neg (not_lt.mpr h), abs_of_nonneg h]

/-- Numeric value of a list of decimal digit characters (most significant
first, empty list giving 0). -/
def digitsVal (cs : List Char) : ℕ :=
  cs.foldl (fun a c => 10 * a + (c.toNat - 48)) 0

/-- Exponent part of a Python float literal: empty input means no
exponent; otherwise an e or E followed by an optional sign and at least
one digit, consuming the whole rest of the string. -/
def parseExp : List Char → Option ℤ
  | [] => some 0
  | c :: r =>
    if c = 'e' ∨ c = 'E' then
      match r with
      | '+' :: r2 => if r2 ≠ [] ∧ r2.all Char.isDigit then some (digitsVal r2) else none
      | '-' :: r2 => if r2 ≠ [] ∧ r2.all Char.isDigit then some (-(digitsVal r2 : ℤ)) else none
      | r2 => if r2 ≠ [] ∧ r2.all Char.isDigit then some (digitsVal r2) else none
    else none

/-- Exact value of a decimal string as accepted by Python float():
optional sign, integer digits, optional fraction, optional exponent, with
at least one digit in the mantissa.  Returns none where float() raises
ValueError. -/
def parseDec (s : String) : Option ℚ :=
  let cs := s.data
  let sr : ℤ × List Char :=
    match cs with
    | '+' :: r => (1, r)
    | '-' :: r => (-1, r)
    | r => (1, r)
  let ip := sr.2.takeWhile Char.isDigit
  let r1 := sr.2.dropWhile Char.isDigit
  let fr : List Char × List Char :=
    match r1 with
    | '.' :: t => (t.takeWhile Char.isDigit, t.dropWhile Char.isDigit)
    | t => ([], t)
  if ip = [] ∧ fr.1 = [] then none
  else
    match parseExp fr.2 with
    | none => none
    | some e =>
      some (qmul (mkRat (sr.1 * ((digitsVal ip : ℤ) * 10 ^ fr.1.length + (digitsVal fr.1 : ℤ)))
              (10 ^ fr.1.length)) (qpow10 e))

/-- Truncation toward zero, the behaviour of Python int() on a float. -/
def truncQ (q : ℚ) : ℤ :=
  if 0 ≤ q then q.floor else -(Rat.neg q).floor

/-- Rounding to the nearest integer with ties to even: the behaviour of
Python round() and of the %.0f format on a finite float. -/
def roundHalfEvenQ (q : ℚ) : ℤ :=
  let f := q.floor
  let r := qsub q (f : ℚ)
  if r < mkRat 1 2 then f
  else if mkRat 1 2 < r then f + 1
  else if f % 2 = 0 then f else f + 1

/-- Fuel-driven base-2 logarithm on naturals (the fuel bounds the
recursion depth; with fuel at least the number itself this is the floor
of log2 for positive input, and 0 at 0). -/
def natLog2Aux : ℕ → ℕ → ℕ
  | 0, _ => 0
  | fuel + 1, n => if 2 ≤ n then natLog2Aux fuel (n / 2) + 1 else 0

/-- Floor of the base-2 logarithm of a positive natural (0 at 0 and 1). -/
def natLog2 (n : ℕ) : ℕ := natLog2Aux n n

/-- Floor of the base-2 logarithm of a positive rational. -/
def qlog2floor (q : ℚ) : ℤ :=
  let e0 : ℤ := (natLog2 q.num.toNat : ℤ) - (natLog2 q.den : ℤ)
  if qpow2 (e0 + 1) ≤ q then e0 + 1
  else if qpow2 e0 ≤ q then e0
  else e0 - 1

/-- Rounding an exact rational to the nearest IEEE-754 binary64 value
(ties to even, subnormals included, overflow not modelled). -/
def floatRound (q : ℚ) : ℚ :=
  if q = 0 then 0
  else
    let a := qabs q
    let e : ℤ := max (qlog2floor a) (-1022)
    let m : ℤ := roundHalfEvenQ (qmul a (qpow2 (52 - e)))
    if q < 0 then Rat.neg (qmul (m : ℚ) (qpow2 (e - 52)))
    else qmul (m : ℚ) (qpow2 (e - 52))

/-- Python float addition: exact sum, correctly rounded. -/
def fadd (a b : ℚ) : ℚ := floatRound (qadd a b)

/-- Python float subtraction: exact difference, correctly rounded. -/
def fsub (a b : ℚ) : ℚ := floatRound (qsub a b)

/-- Python float multiplication: exact product, correctly rounded. -/
def fmul (a b : ℚ) : ℚ := floatRound (qmul a b)

/-- Python ('%.0f' % v) on a finite float v: round half to even to an
integer and print it in decimal, keeping the sign of a negative value
that rounds to zero. -/
def pyFormatF0 (q : ℚ) : String :=
  let r := roundHalfEvenQ q
  if q < 0 ∧ r = 0 then "-0" else toString r

/-- Value of the Python float literal 1e99, the sentinel initial minimum
depth in File.update_depths. -/
def qSentinel : ℚ := floatRound (qpow10 99)

/-- Exceptions the tglc code can raise: ValueError from float(),
KeyError from a header-field lookup, IndexError from a parts or list
subscript, and AssertionError from the assert in assemble_sections. -/
inductive PyError where
  | valueError : PyError
  | keyError : String → PyError
  | indexError : PyError
  | assertionError : String → PyError
deriving DecidableEq

deriving instance DecidableEq for Except

/-- Header: the stripped header line, the field names in order, the field
count, and the name-to-index map.  The map is modelled as an association
list looked up front-first, so prepending a binding is the Python dict
assignment (later assignments win). -/
structure Header where
  line : String
  field_names : List String
  nfields : ℕ
  fields : List (String × ℕ)
deriving DecidableEq

/-- Python dict built by Header.__init__: fields[field_names[i]] = i for
each i in order, later indices overriding earlier ones for a duplicated
name.  Reversing the enumeration makes the front-first lookup find the
last assignment, matching dict semantics. -/
def mkFields (names : List String) : List (String × ℕ) :=
  (names.enum.map (fun p => (p.2, p.1))).reverse

/-- Header.__init__(line): strip the line, split it on tabs, enumerate
the field names. -/
def Header.init (line0 : String) : Header :=
  let l := pyStrip line0
  let names := pySplitStrip line0
  { line := l, field_names := names, nfields := names.length, fields := mkFields names }

/-- Header.to_string. -/
def Header.to_string (h : Header) : String := h.line

/-- Python dict lookup self.fields[field], returning none for KeyError. -/
def Header.lookup (h : Header) (field : String) : Option ℕ :=
  List.lookup field h.fields

/-- Header.has_field. -/
def Header.has_field (h : Header) (field : String) : Bool :=
  (h.lookup field).isSome

/-- Header.add_field: extends the name-to-index map and the field count,
leaving the stored header line and field_names untouched. -/
def Header.add_field (h : Header) (field : String) : Header :=
  { h with fields := (field, h.nfields) :: h.fields, nfields := h.nfields + 1 }

/-- Line: a reference to the (shared) header and the tab-split parts. -/
structure Line where
  header : Header
  parts : List String
deriving DecidableEq

/-- Line.__init__(header, line): strip and split on tabs. -/
def Line.init (h : Header) (line : String) : Line :=
  { header := h, parts := pySplitStrip line }

/-- Line.get(field): self.parts[self.header.fields[field]], raising
KeyError for an unknown field and IndexError for a short row. -/
def Line.get (l : Line) (field : String) : Except PyError String :=
  match l.header.lookup field with
  | none => .error (.keyError field)
  | some i =>
    match l.parts.get? i with
    | none => .error .indexError
    | some v => .ok v

/-- Line.set(field, value). -/
def Line.set (l : Line) (field : String) (value : String) : Except PyError Line :=
  match l.header.lookup field with
  | none => .error (.keyError field)
  | some i =>
    if i < l.parts.length then .ok { l with parts := l.parts.set i value }
    else .error .indexError

/-- Line.change(field, fn): read the part, transform it, store it back.
The transform itself may raise (float parsing), hence the Except-valued
fn. -/
def Line.change (l : Line) (field : String) (fn : String → Except PyError String) :
    Except PyError Line :=
  match l.header.lookup field with
  | none => .error (.keyError field)
  | some i =>
    match l.parts.get? i with
    | none => .error .indexError
    | some v =>
      match fn v with
      | .error e => .error e
      | .ok v2 => .ok { l with parts := l.parts.set i v2 }

/-- Line.to_string: tab-join the parts. -/
def Line.to_string (l : Line) : String := joinTab l.parts

/-- Line.get_depth: int(float(self.get('Depth')) * 100).  The string is
parsed to the nearest double, multiplied by 100 in double arithmetic, and
truncated toward zero by int(). -/
def Line.get_depth (l : Line) : Except PyError ℤ :=
  match l.get "Depth" with
  | .error e => .error e
  | .ok s =>
    match parseDec s with
    | none => .error .valueError
    | some q => .ok (truncQ (fmul (floatRound q) 100))

/-- Line.add_value(value): append to parts. -/
def Line.add_value (l : Line) (value : String) : Line :=
  { l with parts := l.parts ++ [value] }

/-- File: the shared header, the rows, and the cached depth extent.
A fresh Python File has no header, min_depth or max_depth attributes at
all; the placeholder values used before the first assignment are never
consulted on the control paths modelled here. -/
structure File where
  header : Header
  lines : List Line
  min_depth : ℚ
  max_depth : ℚ
deriving DecidableEq

/-- Model of str(float(i)/100.) as written by File.fake_depth: the exact
decimal value of i/100 in Python float repr form (shortest round-tripping
form, which for these values is the plain decimal with trailing zeros
dropped but at least one fractional digit). -/
def fakeDepthStr (i : ℕ) : String :=
  let ip := Nat.repr (i / 100)
  let fp := i % 100
  if fp = 0 then ip ++ ".0"
  else if fp % 10 = 0 then ip ++ "." ++ Nat.repr (fp / 10)
  else if fp < 10 then ip ++ ".0" ++ Nat.repr fp
  else ip ++ "." ++ Nat.repr fp

/-- File.fake_depth: add a "Depth" field to the (shared) header and
append a synthetic depth value to every row, counting up from 0 in
hundredths.  Every Line aliases the File's header object in Python, so
the mutation is reflected into each line here. -/
def File.fake_depth (f : File) : File :=
  let h2 := f.header.add_field "Depth"
  { f with header := h2,
           lines := f.lines.enum.map
             (fun p => { header := h2, parts := p.2.parts ++ [fakeDepthStr p.1] }) }

/-- Loop body of File.update_depths: thread the running maximum (started
at 0) and minimum (started at the float 1e99) through the rows. -/
def depthExtentLoop : List Line → ℚ → ℚ → Except PyError (ℚ × ℚ)
  | [], mx, mn => .ok (mx, mn)
  | l :: ls, mx, mn =>
    match l.get_depth with
    | .error e => .error e
    | .ok d =>
      depthExtentLoop ls (if (d : ℚ) > mx then (d : ℚ) else mx)
        (if (d : ℚ) < mn then (d : ℚ) else mn)

/-- File.update_depths: recompute the cached depth extent. -/
def File.update_depths (f : File) : Except PyError File :=
  match depthExtentLoop f.lines 0 qSentinel with
  | .error e => .error e
  | .ok p => .ok { f with max_depth := p.1, min_depth := p.2 }

/-- File.read: parse the first line as the header, keep each subsequent
line that splits into more than one field, synthesize depths when the
header lacks a "Depth" field, then compute the depth extent. -/
def File.read (src : List String) : Except PyError File :=
  let h := Header.init ((src.head?).getD "")
  let ls := ((src.drop 1).map (fun s => Line.init h s)).filter
    (fun l => decide (1 < l.parts.length))
  let f : File := { header := h, lines := ls, min_depth := 0, max_depth := 0 }
  File.update_depths (if h.has_field "Depth" then f else File.fake_depth f)

/-- File.write: the header line followed by the tab-joined rows, as the
list of written lines. -/
def File.write (f : File) : List String :=
  f.header.to_string :: f.lines.map Line.to_string

/-- File.get_max_depth. -/
def File.get_max_depth (f : File) : ℚ := f.max_depth

/-- File.get_thickness. -/
def File.get_thickness (f : File) : ℚ := qsub f.max_depth f.min_depth

/-- Loop body of File.change: transform the field on every row in order,
stopping at the first raised exception. -/
def changeLines (field : String) (fn : String → Except PyError String) :
    List Line → Except PyError (List Line)
  | [] => .ok []
  | l :: ls =>
    match l.change field fn with
    | .error e => .error e
    | .ok l2 =>
      match changeLines field fn ls with
      | .error e => .error e
      | .ok rest => .ok (l2 :: rest)

/-- File.change(field, fn). -/
def File.change (f : File) (field : String) (fn : String → Except PyError String) :
    Except PyError File :=
  match changeLines field fn f.lines with
  | .error e => .error e
  | .ok ls => .ok { f with lines := ls }

/-- Rewrite function built by File.change_depth: parse the stored string
as a float, transform, format with '%.0f'. -/
def rewriteF0 (fn : ℚ → ℚ) (s : String) : Except PyError String :=
  match parseDec s with
  | none => .error .valueError
  | some q => .ok (pyFormatF0 (fn (floatRound q)))

/-- File.change_depth(fn). -/
def File.change_depth (f : File) (fn : ℚ → ℚ) : Except PyError File :=
  f.change "Depth" (rewriteF0 fn)

/-- Loop body of File.truncate: keep the rows whose depth lies in the
window. -/
def keepLoop (lim0 lim1 : ℚ) : List Line → Except PyError (List Line)
  | [] => .ok []
  | l :: ls =>
    match l.get_depth with
    | .error e => .error e
    | .ok d =>
      match keepLoop lim0 lim1 ls with
      | .error e => .error e
      | .ok rest => .ok (if lim0 ≤ (d : ℚ) ∧ (d : ℚ) ≤ lim1 then l :: rest else rest)

/-- File.truncate(at_top, at_bottom): with both trims zero return the
file unchanged; otherwise keep the rows with depth between
min_depth + at_top and max_depth - at_bottom and recompute the extent. -/
def File.truncate (f : File) (at_top at_bottom : ℤ) : Except PyError File :=
  if at_top = 0 ∧ at_bottom = 0 then .ok f
  else
    match keepLoop (qadd f.min_depth (at_top : ℚ)) (qsub f.max_depth (at_bottom : ℚ)) f.lines with
    | .error e => .error e
    | .ok ls => File.update_depths { f with lines := ls }

/-- File.set_depths(start, increment). -/
def setDepthsLoop (increment : ℤ) : List Line → ℤ → Except PyError (List Line)
  | [], _ => .ok []
  | l :: ls, depth =>
    match l.set "Depth" (toString depth) with
    | .error e => .error e
    | .ok l2 =>
      match setDepthsLoop increment ls (depth + increment) with
      | .error e => .error e
      | .ok rest => .ok (l2 :: rest)

/-- File.concatenate(files): take the header from the first input file
and extend this file's rows with every input file's rows in order.  The
depth-extent cache is not touched.  An empty input list raises
IndexError at files[0]. -/
def File.concatenate (f : File) (fs : List File) : Except PyError File :=
  match fs with
  | [] => .error .indexError
  | g :: _ => .ok { f with header := g.header,
                           lines := f.lines ++ (fs.map (fun x => x.lines)).flatten }

/-- Per-line body of File.chop_fields: collect the named fields in the
new order. -/
def getParts (l : Line) : List String → Except PyError (List String)
  | [] => .ok []
  | fd :: fds =>
    match l.get fd with
    | .error e => .error e
    | .ok v =>
      match getParts l fds with
      | .error e => .error e
      | .ok vs => .ok (v :: vs)

/-- Loop body of File.chop_fields. -/
def chopLines (nh : Header) : List Line → Except PyError (List Line)
  | [] => .ok []
  | l :: ls =>
    match getParts l nh.field_names with
    | .error e => .error e
    | .ok ps =>
      match chopLines nh ls with
      | .error e => .error e
      | .ok rest => .ok (({ header := nh, parts := ps } : Line) :: rest)

/-- File.chop_fields(field_def): re-key every row to the fields named in
field_def, in that order, and install the new header. -/
def File.chop_fields (f : File) (field_def : String) : Except PyError File :=
  let nh := Header.init field_def
  match chopLines nh f.lines with
  | .error e => .error e
  | .ok ls => .ok { f with header := nh, lines := ls }

/-- Stable insertion of a keyed row: after all rows with a key less than
or equal to its own. -/
def insertByKey (p : ℤ × Line) : List (ℤ × Line) → List (ℤ × Line)
  | [] => [p]
  | q :: qs => if p.1 < q.1 then p :: q :: qs else q :: insertByKey p qs

/-- Stable sort of keyed rows (insertion sort; Python's list.sort is also
stable, and a stable sort of a given list by a given key is unique). -/
def sortPairs (ps : List (ℤ × Line)) : List (ℤ × Line) :=
  ps.foldl (fun acc p => insertByKey p acc) []

/-- Key extraction for File.sort: list.sort computes every key before
comparing. -/
def keysLoop : List Line → Except PyError (List (ℤ × Line))
  | [] => .ok []
  | l :: ls =>
    match l.get_depth with
    | .error e => .error e
    | .ok d =>
      match keysLoop ls with
      | .error e => .error e
      | .ok rest => .ok ((d, l) :: rest)

/-- File.sort: stable sort of the rows by integer depth, ascending. -/
def File.sort (f : File) : Except PyError File :=
  match keysLoop f.lines with
  | .error e => .error e
  | .ok ks => .ok { f with lines := (sortPairs ks).map Prod.snd }

/-- Section specification tuple (name, section_length, empty_bottom,
empty_top, top_space): the four- or five-element tuples accepted by
assemble_sections, with the optional fifth element stored as extra
(assemble_sections substitutes 0 when it is omitted). -/
structure SectionSpec where
  name : String
  length : ℤ
  empty_bottom : ℤ
  empty_top : ℤ
  extra : ℤ
deriving DecidableEq

/-- Python dict comprehension section_dict: keyed by section name, a
later tuple with the same name overriding an earlier one. -/
def dictLookup (specs : List SectionSpec) (n : String) : Option SectionSpec :=
  specs.reverse.find? (fun s => s.name == n)

/-- Message of the assert in assemble_sections:
"specified length %d does not equal actual length %d" with the declared
and the measured length. -/
def assertMsg (sl th : ℤ) : String :=
  "specified length " ++ toString sl ++ " does not equal actual length " ++ toString th

/-- Depth-remapping closure defined inside assemble_sections:
top + thickness - x*100 + empty_bottom, evaluated in Python as
((top + thickness) - x*100) + empty_bottom with the int subexpressions
exact and the mixed int/float operations in double arithmetic. -/
def depthFn (top1 th eb : ℚ) (x : ℚ) : ℚ :=
  fadd (fsub (floatRound (qadd top1 th)) (fmul x 100)) (floatRound eb)

/-- Loop body of assemble_sections for one section name: read the file,
look the name up in section_dict, advance top by the extra top space,
trim the empty tray, validate the measured thickness against the declared
section length (AssertionError on mismatch), trim the edge-effect
margins, rewrite the depths, optionally chop to the MS fields, and return
the finished table with the advanced top accumulator.  The inputs
function maps a section name to the lines of the file named by
input_file_template % name. -/
def processName (inputs : String → List String) (specs : List SectionSpec)
    (edge : ℤ) (msOnly : Bool) (top : ℚ) (n : String) : Except PyError (File × ℚ) :=
  match File.read (inputs n) with
  | .error e => .error e
  | .ok f0 =>
    match dictLookup specs n with
    | none => .error (.keyError n)
    | some sp =>
      let top1 := qadd top (sp.extra : ℚ)
      match f0.truncate sp.empty_bottom sp.empty_top with
      | .error e => .error e
      | .ok f1 =>
        let th := f1.get_thickness
        if th = (sp.length : ℚ) then
          match f1.truncate edge edge with
          | .error e => .error e
          | .ok f2 =>
            match f2.change_depth (depthFn top1 th (sp.empty_bottom : ℚ)) with
            | .error e => .error e
            | .ok f3 =>
              if msOnly then
                match f3.chop_fields "Depth\tMS corr\n" with
                | .error e => .error e
                | .ok f4 => .ok (f4, qadd top1 th)
              else .ok (f3, qadd top1 th)
        else .error (.assertionError (assertMsg sp.length (truncQ th)))

/-- Main loop of assemble_sections over the section names, threading the
top accumulator and collecting the finished section tables in order. -/
def assembleLoop (inputs : String → List String) (specs : List SectionSpec)
    (edge : ℤ) (msOnly : Bool) : ℚ → List String → Except PyError (List File × ℚ)
  | top, [] => .ok ([], top)
  | top, n :: ns =>
    match processName inputs specs edge msOnly top n with
    | .error e => .error e
    | .ok p =>
      match assembleLoop inputs specs edge msOnly p.2 ns with
      | .error e => .error e
      | .ok q => .ok (p.1 :: q.1, q.2)

/-- Fresh File(): in Python it has only an empty lines list; the header
and extent attributes do not exist until assigned, and they are never
consulted before being assigned on the paths modelled here, so they hold
placeholders. -/
def emptyFile : File :=
  { header := Header.init "", lines := [], min_depth := 0, max_depth := 0 }

/-- assemble_sections(input_file_template, output_file, section_list,
ms_only, edge_thickness): process every section in list order starting
with the top accumulator at 0, concatenate the finished tables into a
fresh composite, sort it by depth and write it.  The returned list of
lines is what is written to output_file; an error means the run aborts
with no output written. -/
def assemble_sections (inputs : String → List String) (specs : List SectionSpec)
    (msOnly : Bool) (edge : ℤ) : Except PyError (List String) :=
  match assembleLoop inputs specs edge msOnly 0 (specs.map (fun s => s.name)) with
  | .error e => .error e
  | .ok p =>
    match emptyFile.concatenate p.1 with
    | .error e => .error e
    | .ok comp =>
      match comp.sort with
      | .error e => .error e
      | .ok comp2 => .ok comp2.write

/-- Depths of a list of rows in order, stopping at the first exception:
the values the update_depths and truncate loops consume. -/
def depthsOf : List Line → Except PyError (List ℤ)
  | [] => .ok []
  | l :: ls =>
    match l.get_depth with
    | .error e => .error e
    | .ok d =>
      match depthsOf ls with
      | .error e => .error e
      | .ok ds => .ok (d :: ds)

/-- Depth normalisation as the specification words it: round(parsed_float
* 100), with Python round (ties to even) applied to the double product.
Stated only for comparison with Line.get_depth, which the source
implements as int(float(s) * 100), truncating toward zero. -/
def specRoundDepth (s : String) : Option ℤ :=
  (parseDec s).map (fun q => roundHalfEvenQ (fmul (floatRound q) 100))

/-! Helper lemmas about the embedded operations. -/

/-- Recomputing the depth extent changes only the cached extent. -/
theorem update_depths_ok : ∀ (f f2 : File), f.update_depths = .ok f2 →
    f2.lines = f.lines ∧ f2.header = f.header := by
  intro f f2 h
  unfold File.update_depths at h
  cases hd : depthExtentLoop f.lines 0 qSentinel <;> rw [hd] at h
  · exact absurd h (by simp)
  · cases h
    exact ⟨rfl, rfl⟩

/-- The update_depths loop computes left folds of the row depths. -/
theorem depthExtentLoop_eq : ∀ (ls : List Line) (ds : List ℤ) (mx mn : ℚ),
    depthsOf ls = .ok ds →
    depthExtentLoop ls mx mn =
      .ok (ds.foldl (fun (a : ℚ) (d : ℤ) => if (d : ℚ) > a then (d : ℚ) else a) mx,
           ds.foldl (fun (a : ℚ) (d : ℤ) => if (d : ℚ) < a then (d : ℚ) else a) mn) := by
  intro ls
  induction ls with
  | nil =>
    intro ds mx mn h
    unfold depthsOf at h
    cases h
    rfl
  | cons l t ih =>
    intro ds mx mn h
    unfold depthsOf at h
    cases hg : l.get_depth <;> rw [hg] at h
    · exact absurd h (by simp)
    · cases ht : depthsOf t <;> rw [ht] at h
      · exact absurd h (by simp)
      · cases h
        unfold depthExtentLoop
        rw [hg]
        simpa only [List.foldl_cons] using ih _ _ _ ht

/-- The running-maximum step is a max. -/
theorem ifmax_eq (a : ℚ) (d : ℤ) :
    (if (d : ℚ) > a then (d : ℚ) else a) = max a (d : ℚ) := by
  rcases le_or_lt (d : ℚ) a with h | h
  · simp [h.not_lt, max_eq_left h]
  · simp [h, max_eq_right h.le]

/-- The running-minimum step is a min. -/
theorem ifmin_eq (a : ℚ) (d : ℤ) :
    (if (d : ℚ) < a then (d : ℚ) else a) = min a (d : ℚ) := by
  rcases le_or_lt a (d : ℚ) with h | h
  · simp [h.not_lt, min_eq_left h]
  · simp [h, min_eq_right h.le]

/-- Casting commutes with the integer max. -/
theorem castMax (d x : ℤ) : ((max d x : ℤ) : ℚ) = max (d : ℚ) (x : ℚ) := by
  rcases le_total d x with h | h
  · rw [max_eq_right h, max_eq_right (by exact_mod_cast h)]
  · rw [max_eq_left h, max_eq_left (by exact_mod_cast h)]

/-- Casting commutes with the integer min. -/
theorem castMin (d x : ℤ) : ((min d x : ℤ) : ℚ) = min (d : ℚ) (x : ℚ) := by
  rcases le_total d x with h | h
  · rw [min_eq_left h, min_eq_left (by exact_mod_cast h)]
  · rw [min_eq_right h, min_eq_right (by exact_mod_cast h)]

/-- Folding rational maxes over casts is the cast of the integer fold. -/
theorem foldl_max_cast : ∀ (ds : List ℤ) (d : ℤ),
    ds.foldl (fun (a : ℚ) (x : ℤ) => max a (x : ℚ)) (d : ℚ) = ((ds.foldl max d : ℤ) : ℚ) := by
  intro ds
  induction ds with
  | nil => intro d; rfl
  | cons x t ih =>
    intro d
    simp only [List.foldl_cons]
    rw [← castMax, ih]

/-- Folding rational mins over casts is the cast of the integer fold. -/
theorem foldl_min_cast : ∀ (ds : List ℤ) (d : ℤ),
    ds.foldl (fun (a : ℚ) (x : ℤ) => min a (x : ℚ)) (d : ℚ) = ((ds.foldl min d : ℤ) : ℚ) := by
  intro ds
  induction ds with
  | nil => intro d; rfl
  | cons x t ih =>
    intro d
    simp only [List.foldl_cons]
    rw [← castMin, ih]

/-! Claims. -/

/-- C3: corrected.  For every row whose Depth field parses, the integer
depth used for ordering, truncation windows and extent computation is the
truncation toward zero (Python int()) of the double product
parsed_float * 100 -- not round() as claimed; and the extent recomputation
leaves the stored rows, hence the stored Depth text, unmodified. -/
theorem claim_C3 :
    (∀ (l : Line) (s : String) (q : ℚ),
      l.get "Depth" = .ok s → parseDec s = some q →
      l.get_depth = .ok (truncQ (fmul (floatRound q) 100))) ∧
    (∀ f f2 : File, f.update_depths = .ok f2 → f2.lines = f.lines) := by
  constructor
  · intro l s q h1 h2
    simp [Line.get_depth, h1, h2]
  · intro f f2 h
    exact (update_depths_ok f f2 h).1

/-- C3 witness: a concrete row with Depth "1.5" has integer depth
int(float("1.5") * 100) under the theorem, and a concrete extent
recomputation keeps the rows. -/
theorem claim_C3_witness :
    Line.get_depth { header := Header.init "Depth", parts := ["1.5"] } =
      .ok (truncQ (fmul (floatRound (mkRat 3 2)) 100)) ∧
    (({ header := Header.init "Depth", lines := [], min_depth := qSentinel,
        max_depth := 0 } : File)).lines =
      (({ header := Header.init "Depth", lines := [], min_depth := 3,
          max_depth := 7 } : File)).lines :=
  ⟨claim_C3.1 { header := Header.init "Depth", parts := ["1.5"] } "1.5" (mkRat 3 2)
      (by decide) (by decide),
   claim_C3.2
      { header := Header.init "Depth", lines := [], min_depth := 3, max_depth := 7 }
      { header := Header.init "Depth", lines := [], min_depth := qSentinel, max_depth := 0 }
      (by decide)⟩

/-- C3 counterexample: for the Depth text "0.29" the code computes
int(float("0.29") * 100) = 28, while round(float("0.29") * 100) = 29, so
the claimed round() normalization does not describe the code. -/
theorem claim_C3_cex :
    Line.get_depth { header := Header.init "Depth", parts := ["0.29"] } = .ok 28 ∧
    specRoundDepth "0.29" = some 29 ∧ (28 : ℤ) ≠ 29 :=
  ⟨by decide, by decide, by decide⟩

/-- C5: corrected.  On an empty table the recomputed extent cache is the
sentinel pair (1e99, 0).  On a non-empty table whose row depths all lie
between 0 and the sentinel the cache is the true (minimum, maximum) of
the row depths; the counterexample shows the maximum is clamped below by
the 0 the loop starts from, so the unconditional claim fails. -/
theorem claim_C5 :
    (∀ f : File, f.lines = [] →
      f.update_depths = .ok { f with min_depth := qSentinel, max_depth := 0 }) ∧
    (∀ (f : File) (d : ℤ) (ds : List ℤ),
      depthsOf f.lines = .ok (d :: ds) →
      (∀ x ∈ d :: ds, 0 ≤ x ∧ (x : ℚ) ≤ qSentinel) →
      f.update_depths = .ok { f with min_depth := ((ds.foldl min d : ℤ) : ℚ),
                                     max_depth := ((ds.foldl max d : ℤ) : ℚ) }) := by
  constructor
  · intro f h
    unfold File.update_depths
    rw [h]
    rfl
  · intro f d ds hds hbd
    have h0 : (0 : ℚ) ≤ (d : ℚ) ∧ (d : ℚ) ≤ qSentinel := by
      have hh := hbd d (by simp)
      exact ⟨by exact_mod_cast hh.1, hh.2⟩
    unfold File.update_depths
    rw [depthExtentLoop_eq f.lines (d :: ds) 0 qSentinel hds]
    simp only [ifmax_eq, ifmin_eq, List.foldl_cons]
    rw [max_eq_right h0.1, min_eq_right h0.2, foldl_max_cast, foldl_min_cast]

/-- C5 witness: a table with row depths 5 and 0 gets cache
(min, max) = (0, 5); an empty table gets the sentinel pair. -/
theorem claim_C5_witness :
    (({ header := Header.init "Depth", lines := [], min_depth := 3,
        max_depth := 7 } : File)).update_depths =
      .ok { header := Header.init "Depth", lines := [], min_depth := qSentinel,
            max_depth := 0 } ∧
    (({ header := Header.init "Sample ID\tDepth",
        lines := [{ header := Header.init "Sample ID\tDepth", parts := ["s", "0.05"] },
                  { header := Header.init "Sample ID\tDepth", parts := ["t", "0.0"] }],
        min_depth := 9, max_depth := 9 } : File)).update_depths =
      .ok { header := Header.init "Sample ID\tDepth",
            lines := [{ header := Header.init "Sample ID\tDepth", parts := ["s", "0.05"] },
                      { header := Header.init "Sample ID\tDepth", parts := ["t", "0.0"] }],
            min_depth := ((([(0 : ℤ)].foldl min 5 : ℤ)) : ℚ),
            max_depth := ((([(0 : ℤ)].foldl max 5 : ℤ)) : ℚ) } :=
  ⟨claim_C5.1 { header := Header.init "Depth", lines := [], min_depth := 3, max_depth := 7 }
      rfl,
   claim_C5.2
      { header := Header.init "Sample ID\tDepth",
        lines := [{ header := Header.init "Sample ID\tDepth", parts := ["s", "0.05"] },
                  { header := Header.init "Sample ID\tDepth", parts := ["t", "0.0"] }],
        min_depth := 9, max_depth := 9 }
      5 [0] (by decide) (by decide)⟩

/-- C5 counterexample: a table whose only row has Depth "-1" (integer
depth -100) gets cache (min, max) = (-100, 0): the cached maximum is the
loop's initial 0, not the true maximum -100, so the unconditional claim
is false. -/
theorem claim_C5_cex :
    (({ header := Header.init "Sample ID\tDepth",
        lines := [{ header := Header.init "Sample ID\tDepth", parts := ["s", "-1"] }],
        min_depth := 0, max_depth := 0 } : File)).update_depths =
      .ok { header := Header.init "Sample ID\tDepth",
            lines := [{ header := Header.init "Sample ID\tDepth", parts := ["s", "-1"] }],
            min_depth := -100, max_depth := 0 } ∧
    Line.get_depth { header := Header.init "Sample ID\tDepth", parts := ["s", "-1"] } =
      .ok (-100) ∧
    ((0 : ℚ) ≠ ((-100 : ℤ) : ℚ)) :=
  ⟨by decide, by decide, by decide⟩

/-- C6: corrected.  concatenate takes the header from the first input
table and appends all input rows, in order, after the receiver's own
rows, but it leaves the cached depth extent untouched (the claimed
recomputation does not happen). -/
theorem claim_C6 : ∀ (f g : File) (fs : List File),
    f.concatenate (g :: fs) =
      .ok { f with header := g.header,
                   lines := f.lines ++ ((g :: fs).map (fun x => x.lines)).flatten } := by
  intro f g fs
  rfl

/-- C6 counterexample: concatenating a table holding a row of depth 500
into a receiver cached at (0, 0) leaves the cache at (0, 0), which is not
valid for the combined rows (500 is not at most the cached maximum 0). -/
theorem claim_C6_cex :
    (({ header := Header.init "Depth", lines := [], min_depth := 0,
        max_depth := 0 } : File)).concatenate
      [{ header := Header.init "Sample ID\tDepth",
         lines := [{ header := Header.init "Sample ID\tDepth", parts := ["s", "5.0"] }],
         min_depth := 500, max_depth := 500 }] =
      .ok { header := Header.init "Sample ID\tDepth",
            lines := [{ header := Header.init "Sample ID\tDepth", parts := ["s", "5.0"] }],
            min_depth := 0, max_depth := 0 } ∧
    Line.get_depth { header := Header.init "Sample ID\tDepth", parts := ["s", "5.0"] } =
      .ok 500 ∧
    ¬ ((500 : ℚ) ≤ (0 : ℚ)) :=
  ⟨by decide, by decide, by decide⟩

/-- C7: confirmed.  Truncating with both trim amounts zero returns the
table itself: same rows, same Depth texts, same cached extent, no
recomputation. -/
theorem claim_C7 : ∀ f : File, f.truncate 0 0 = .ok f := by
  intro f
  simp [File.truncate]

/-- C9: corrected.  A source whose header line is empty is accepted, not
rejected: whenever load succeeds on it, the header is the single
empty-named field (the code raises no ParseError and defines none). -/
theorem claim_C9 : ∀ (rows : List String) (F : File),
    File.read ("" :: rows) = .ok F →
    F.header.line = "" ∧ F.header.field_names = [""] ∧ F.header.nfields = 2 := by
  intro rows F h
  unfold File.read at h
  have hh := (update_depths_ok _ _ h).2
  have hc : (Header.init (("" :: rows).head?.getD "")).has_field "Depth" = false := rfl
  rw [hc] at hh
  simp only [Bool.false_eq_true, if_false] at hh
  rw [hh]
  exact ⟨rfl, rfl, rfl⟩

/-- C9 witness: loading a concrete source with an empty header line and
one data row succeeds, with the empty-named single-field header extended
by the synthesized Depth column. -/
theorem claim_C9_witness :
    File.read ["", "a\t0.5"] =
      .ok { header := (Header.init "").add_field "Depth",
            lines := [{ header := (Header.init "").add_field "Depth",
                        parts := ["a", "0.5", "0.0"] }],
            min_depth := 50, max_depth := 50 } ∧
    (((Header.init "").add_field "Depth").line = "" ∧
     ((Header.init "").add_field "Depth").field_names = [""] ∧
     ((Header.init "").add_field "Depth").nfields = 2) := by
  refine ⟨by decide, ?_⟩
  exact claim_C9 ["a\t0.5"]
    { header := (Header.init "").add_field "Depth",
      lines := [{ header := (Header.init "").add_field "Depth",
                  parts := ["a", "0.5", "0.0"] }],
      min_depth := 50, max_depth := 50 } (by decide)

/-- C9 counterexample: load of a source whose header line is empty
succeeds and produces a table; it does not fail with any error. -/
theorem claim_C9_cex :
    File.read ["", "a\t0.5"] ≠ .error PyError.valueError ∧
    File.read ["", "a\t0.5"] ≠ .error (PyError.keyError "Depth") ∧
    (∃ F, File.read ["", "a\t0.5"] = .ok F) := by
  refine ⟨by decide, by decide, ?_⟩
  exact ⟨{ header := (Header.init "").add_field "Depth",
           lines := [{ header := (Header.init "").add_field "Depth",
                       parts := ["a", "0.5", "0.0"] }],
           min_depth := 50, max_depth := 50 }, by decide⟩

/-- Inversion of a successful Line.change: the field index resolved, the
old value was present, the transform succeeded, and the result is the row
with that one part replaced. -/
theorem line_change_ok : ∀ (l : Line) (field : String)
    (fn : String → Except PyError String) (l2 : Line),
    Line.change l field fn = .ok l2 →
    ∃ i v v2, l.header.lookup field = some i ∧ l.parts.get? i = some v ∧
      fn v = .ok v2 ∧ l2 = { l with parts := l.parts.set i v2 } := by
  intro l field fn l2 h
  unfold Line.change at h
  split at h
  · exact absurd h (by simp)
  · split at h
    · exact absurd h (by simp)
    · split at h
      · exact absurd h (by simp)
      · cases h
        exact ⟨_, _, _, by assumption, by assumption, by assumption, rfl⟩

/-- Setting an existing index stores the value at that index. -/
theorem get?_set_self : ∀ (l : List String) (i : ℕ) (v : String),
    i < l.length → (l.set i v)[i]? = some v := by
  intro l
  induction l with
  | nil => intro i v h; exact absurd h (by simp)
  | cons x t ih =>
    intro i v h
    cases i with
    | zero => simp
    | succ j => simpa using ih j v (by simpa using h)

/-- A successful Line.change reads the old field value, transforms it,
and afterwards the same field reads back the transformed value, with the
header and the row length unchanged. -/
theorem line_change_get : ∀ (l : Line) (field : String)
    (fn : String → Except PyError String) (l2 : Line),
    Line.change l field fn = .ok l2 →
    ∃ v v2, l.get field = .ok v ∧ fn v = .ok v2 ∧ l2.get field = .ok v2 ∧
      l2.header = l.header ∧ l2.parts.length = l.parts.length := by
  intro l field fn l2 h
  obtain ⟨i, v, v2, hl, hg, hf, rfl⟩ := line_change_ok l field fn l2 h
  obtain ⟨hlt, -⟩ := List.get?_eq_some.mp hg
  have hg2 : l.parts[i]? = some v := by simpa using hg
  refine ⟨v, v2, ?_, hf, ?_, rfl, by simp⟩
  · simp [Line.get, hl, hg2]
  · simp [Line.get, hl, get?_set_self l.parts i v2 hlt]

/-- Elementwise characterisation of a successful changeLines run. -/
theorem changeLines_ok : ∀ (ls : List Line) (field : String)
    (fn : String → Except PyError String) (ls2 : List Line),
    changeLines field fn ls = .ok ls2 →
    ls2.length = ls.length ∧
    ∀ i, i < ls.length →
      ∃ l1 l2, ls.get? i = some l1 ∧ ls2.get? i = some l2 ∧
        Line.change l1 field fn = .ok l2 := by
  intro ls field fn
  induction ls with
  | nil =>
    intro ls2 h
    unfold changeLines at h
    cases h
    exact ⟨rfl, fun i hi => absurd hi (by simp)⟩
  | cons l t ih =>
    intro ls2 h
    unfold changeLines at h
    cases hc : Line.change l field fn <;> rw [hc] at h
    · exact absurd h (by simp)
    · cases hr : changeLines field fn t <;> rw [hr] at h
      · exact absurd h (by simp)
      · cases h
        obtain ⟨hlen, hidx⟩ := ih _ hr
        refine ⟨by simp [hlen], ?_⟩
        intro i hi
        cases i with
        | zero => exact ⟨l, _, rfl, rfl, hc⟩
        | succ j => exact hidx j (by simpa using hi)

/-- Inversion of the rewrite function of change_depth. -/
theorem rewriteF0_ok : ∀ (fn : ℚ → ℚ) (s v2 : String),
    rewriteF0 fn s = .ok v2 →
    ∃ q, parseDec s = some q ∧ v2 = pyFormatF0 (fn (floatRound q)) := by
  intro fn s v2 h
  unfold rewriteF0 at h
  cases hp : parseDec s <;> rw [hp] at h
  · exact absurd h (by simp)
  · cases h
    exact ⟨_, rfl, rfl⟩

/-- Full characterisation of a successful change_depth: header and
cached extent untouched, same row count, and every row's Depth field
rewritten to the uniform '%.0f' image of the transformed parse of its
old value. -/
theorem change_depth_ok : ∀ (f : File) (fn : ℚ → ℚ) (f2 : File),
    f.change_depth fn = .ok f2 →
    f2.header = f.header ∧ f2.min_depth = f.min_depth ∧ f2.max_depth = f.max_depth ∧
    f2.lines.length = f.lines.length ∧
    ∀ i, i < f.lines.length →
      ∃ l1 l2 s q, f.lines.get? i = some l1 ∧ f2.lines.get? i = some l2 ∧
        l1.get "Depth" = .ok s ∧ parseDec s = some q ∧
        l2.get "Depth" = .ok (pyFormatF0 (fn (floatRound q))) := by
  intro f fn f2 h
  unfold File.change_depth File.change at h
  cases hc : changeLines "Depth" (rewriteF0 fn) f.lines <;> rw [hc] at h
  · exact absurd h (by simp)
  · cases h
    obtain ⟨hlen, hidx⟩ := changeLines_ok _ _ _ _ hc
    refine ⟨rfl, rfl, rfl, hlen, ?_⟩
    intro i hi
    obtain ⟨l1, l2, hg1, hg2, hch⟩ := hidx i hi
    obtain ⟨v, v2, hv, hf, hv2, _, _⟩ := line_change_get _ _ _ _ hch
    obtain ⟨q, hq, rfl⟩ := rewriteF0_ok _ _ _ hf
    exact ⟨l1, l2, v, q, hg1, hg2, hv, hq, hv2⟩

/-- C4: corrected.  change_depth parses every row's Depth field as a
float, applies the transform, and stores back Python '%.0f' of the
result: an integer-rounded decimal with no digits after the decimal
point (not one digit as claimed), the same zero-precision format applied
uniformly to all rows; the cached extent and header are untouched. -/
theorem claim_C4 : ∀ (f : File) (fn : ℚ → ℚ) (f2 : File),
    f.change_depth fn = .ok f2 →
    f2.header = f.header ∧ f2.min_depth = f.min_depth ∧ f2.max_depth = f.max_depth ∧
    f2.lines.length = f.lines.length ∧
    ∀ i, i < f.lines.length →
      ∃ l1 l2 s q, f.lines.get? i = some l1 ∧ f2.lines.get? i = some l2 ∧
        l1.get "Depth" = .ok s ∧ parseDec s = some q ∧
        l2.get "Depth" = .ok (pyFormatF0 (fn (floatRound q))) :=
  change_depth_ok

/-- C4 witness: rewriting the single row with Depth "1.5" through the
identity transform yields a row whose Depth reads back as the '%.0f'
image of 1.5. -/
theorem claim_C4_witness :
    ∃ l1 l2 s q,
      (({ header := Header.init "Depth",
          lines := [{ header := Header.init "Depth", parts := ["1.5"] }],
          min_depth := 150, max_depth := 150 } : File)).lines.get? 0 = some l1 ∧
      (({ header := Header.init "Depth",
          lines := [{ header := Header.init "Depth", parts := ["2"] }],
          min_depth := 150, max_depth := 150 } : File)).lines.get? 0 = some l2 ∧
      l1.get "Depth" = .ok s ∧ parseDec s = some q ∧
      l2.get "Depth" = .ok (pyFormatF0 ((fun x => x) (floatRound q))) :=
  (claim_C4
    { header := Header.init "Depth",
      lines := [{ header := Header.init "Depth", parts := ["1.5"] }],
      min_depth := 150, max_depth := 150 }
    (fun x => x)
    { header := Header.init "Depth",
      lines := [{ header := Header.init "Depth", parts := ["2"] }],
      min_depth := 150, max_depth := 150 }
    (by decide)).2.2.2.2 0 (by decide)

/-- C4 counterexample: the rewritten Depth value for the row "1.5" under
the identity transform is the string "2", which contains no decimal
point at all, refuting the claimed one-digit-after-the-point format. -/
theorem claim_C4_cex :
    (({ header := Header.init "Depth",
        lines := [{ header := Header.init "Depth", parts := ["1.5"] }],
        min_depth := 150, max_depth := 150 } : File)).change_depth (fun x => x) =
      .ok { header := Header.init "Depth",
            lines := [{ header := Header.init "Depth", parts := ["2"] }],
            min_depth := 150, max_depth := 150 } ∧
    ('.' ∈ "2".data → False) ∧ ('.' ∈ "1.5".data) :=
  ⟨by decide, by decide, by decide⟩

/-- Rows kept by the truncate loop never outnumber the input rows. -/
theorem keepLoop_len_le : ∀ (ls : List Line) (lim0 lim1 : ℚ) (r : List Line),
    keepLoop lim0 lim1 ls = .ok r → r.length ≤ ls.length := by
  intro ls
  induction ls with
  | nil =>
    intro lim0 lim1 r h
    cases h
    exact Nat.le_refl 0
  | cons l t ih =>
    intro lim0 lim1 r h
    unfold keepLoop at h
    cases hg : l.get_depth <;> rw [hg] at h
    · exact absurd h (by simp)
    · cases hr : keepLoop lim0 lim1 t <;> rw [hr] at h
      · exact absurd h (by simp)
      · cases h
        have hle := ih lim0 lim1 _ hr
        split
        · simpa using Nat.succ_le_succ hle
        · exact Nat.le_succ_of_le hle

/-- Narrowing the window never keeps more rows. -/
theorem keepLoop_mono : ∀ (ls : List Line) (lo hi lo2 hi2 : ℚ) (r r2 : List Line),
    lo ≤ lo2 → hi2 ≤ hi →
    keepLoop lo hi ls = .ok r → keepLoop lo2 hi2 ls = .ok r2 →
    r2.length ≤ r.length := by
  intro ls
  induction ls with
  | nil =>
    intro lo hi lo2 hi2 r r2 _ _ h1 h2
    cases h1
    cases h2
    exact Nat.le_refl 0
  | cons l t ih =>
    intro lo hi lo2 hi2 r r2 hlo hhi h1 h2
    unfold keepLoop at h1 h2
    cases hg : l.get_depth <;> rw [hg] at h1 h2
    · exact absurd h1 (by simp)
    · cases hr1 : keepLoop lo hi t <;> rw [hr1] at h1
      · exact absurd h1 (by simp)
      · cases hr2 : keepLoop lo2 hi2 t <;> rw [hr2] at h2
        · exact absurd h2 (by simp)
        · cases h1
          cases h2
          have hrec := ih lo hi lo2 hi2 _ _ hlo hhi hr1 hr2
          rename_i d rest1 rest2
          by_cases hc2 : lo2 ≤ (d : ℚ) ∧ (d : ℚ) ≤ hi2
          · have hc1 : lo ≤ (d : ℚ) ∧ (d : ℚ) ≤ hi :=
              ⟨le_trans hlo hc2.1, le_trans hc2.2 hhi⟩
            simp only [if_pos hc1, if_pos hc2, List.length_cons]
            exact Nat.succ_le_succ hrec
          · simp only [if_neg hc2]
            by_cases hc1 : lo ≤ (d : ℚ) ∧ (d : ℚ) ≤ hi
            · simp only [if_pos hc1, List.length_cons]
              exact Nat.le_succ_of_le hrec
            · simp only [if_neg hc1]
              exact hrec

/-- A successful truncate with a non-trivial window goes through the
keep loop, and the surviving rows are its output. -/
theorem truncate_ok_lines : ∀ (f : File) (a b : ℤ) (f2 : File),
    ¬(a = 0 ∧ b = 0) → f.truncate a b = .ok f2 →
    ∃ r, keepLoop (qadd f.min_depth (a : ℚ)) (qsub f.max_depth (b : ℚ)) f.lines = .ok r ∧
      f2.lines = r := by
  intro f a b f2 hz h
  unfold File.truncate at h
  rw [if_neg hz] at h
  cases hk : keepLoop (qadd f.min_depth (a : ℚ)) (qsub f.max_depth (b : ℚ)) f.lines <;>
    rw [hk] at h
  · exact absurd h (by simp)
  · exact ⟨_, rfl, (update_depths_ok _ _ h).1⟩

/-- C8: confirmed.  Growing both trim amounts (from nonnegative values)
never increases the number of surviving rows. -/
theorem claim_C8 : ∀ (t : File) (a a2 b b2 : ℤ) (t1 t2 : File),
    0 ≤ a → a ≤ a2 → 0 ≤ b → b ≤ b2 →
    t.truncate a b = .ok t1 → t.truncate a2 b2 = .ok t2 →
    t2.lines.length ≤ t1.lines.length := by
  intro t a a2 b b2 t1 t2 ha haa hb hbb h1 h2
  by_cases hz : a = 0 ∧ b = 0
  · rw [hz.1, hz.2] at h1
    unfold File.truncate at h1
    rw [if_pos ⟨rfl, rfl⟩] at h1
    cases h1
    by_cases hz2 : a2 = 0 ∧ b2 = 0
    · rw [hz2.1, hz2.2] at h2
      unfold File.truncate at h2
      rw [if_pos ⟨rfl, rfl⟩] at h2
      cases h2
      exact Nat.le_refl _
    · obtain ⟨r2, hk2, hl2⟩ := truncate_ok_lines t a2 b2 t2 hz2 h2
      rw [hl2]
      exact keepLoop_len_le _ _ _ _ hk2
  · have hz2 : ¬(a2 = 0 ∧ b2 = 0) := by
      intro hc
      exact hz ⟨by omega, by omega⟩
    obtain ⟨r1, hk1, hl1⟩ := truncate_ok_lines t a b t1 hz h1
    obtain ⟨r2, hk2, hl2⟩ := truncate_ok_lines t a2 b2 t2 hz2 h2
    rw [hl1, hl2]
    refine keepLoop_mono t.lines _ _ _ _ r1 r2 ?_ ?_ hk1 hk2
    · rw [qadd_eq, qadd_eq]
      exact add_le_add_left (by exact_mod_cast haa) _
    · rw [qsub_eq, qsub_eq]
      exact sub_le_sub_left (by exact_mod_cast hbb) _

/-- C8 witness: on a two-row table, trimming (0, 0) keeps both rows and
trimming (2, 0) keeps one, so the wider window keeps at least as many. -/
theorem claim_C8_witness :
    (({ header := Header.init "Sample ID\tDepth",
        lines := [{ header := Header.init "Sample ID\tDepth", parts := ["t", "0.03"] }],
        min_depth := 3, max_depth := 3 } : File)).lines.length ≤
      (({ header := Header.init "Sample ID\tDepth",
          lines := [{ header := Header.init "Sample ID\tDepth", parts := ["s", "0.0"] },
                    { header := Header.init "Sample ID\tDepth", parts := ["t", "0.03"] }],
          min_depth := 0, max_depth := 3 } : File)).lines.length :=
  claim_C8
    { header := Header.init "Sample ID\tDepth",
      lines := [{ header := Header.init "Sample ID\tDepth", parts := ["s", "0.0"] },
                { header := Header.init "Sample ID\tDepth", parts := ["t", "0.03"] }],
      min_depth := 0, max_depth := 3 }
    0 2 0 0
    { header := Header.init "Sample ID\tDepth",
      lines := [{ header := Header.init "Sample ID\tDepth", parts := ["s", "0.0"] },
                { header := Header.init "Sample ID\tDepth", parts := ["t", "0.03"] }],
      min_depth := 0, max_depth := 3 }
    { header := Header.init "Sample ID\tDepth",
      lines := [{ header := Header.init "Sample ID\tDepth", parts := ["t", "0.03"] }],
      min_depth := 3, max_depth := 3 }
    (by decide) (by decide) (by decide) (by decide) (by decide) (by decide)

/-- C2: confirmed.  One iteration of the assemble_sections loop (as run
for each section in list order, starting from top = 0): the accumulator
is advanced by the section's extra top space before the rewrite and by
the post-tray-trim thickness after it, and after the tray-trim and
edge-trim truncations every surviving row's Depth field is rewritten to
the '%.0f' image of top + thickness - x*100 + empty_bottom, with x the
row's previous Depth parsed as a float. -/
theorem claim_C2 : ∀ (inputs : String → List String) (specs : List SectionSpec)
    (edge : ℤ) (top : ℚ) (n : String) (sp : SectionSpec) (f0 f1 f2 f3 : File),
    dictLookup specs n = some sp →
    File.read (inputs n) = .ok f0 →
    f0.truncate sp.empty_bottom sp.empty_top = .ok f1 →
    f1.get_thickness = (sp.length : ℚ) →
    f1.truncate edge edge = .ok f2 →
    f2.change_depth
      (depthFn (qadd top (sp.extra : ℚ)) f1.get_thickness (sp.empty_bottom : ℚ)) = .ok f3 →
    processName inputs specs edge false top n =
      .ok (f3, qadd (qadd top (sp.extra : ℚ)) f1.get_thickness) ∧
    f3.lines.length = f2.lines.length ∧
    ∀ i, i < f2.lines.length →
      ∃ l1 l2 s q, f2.lines.get? i = some l1 ∧ f3.lines.get? i = some l2 ∧
        l1.get "Depth" = .ok s ∧ parseDec s = some q ∧
        l2.get "Depth" =
          .ok (pyFormatF0 (depthFn (qadd top (sp.extra : ℚ)) f1.get_thickness
                 (sp.empty_bottom : ℚ) (floatRound q))) := by
  intro inputs specs edge top n sp f0 f1 f2 f3 h1 h2 h3 h4 h5 h6
  obtain ⟨hh, hmin, hmax, hlen, hidx⟩ := change_depth_ok _ _ _ h6
  refine ⟨?_, hlen, fun i hi => hidx i hi⟩
  rw [h4] at h6 ⊢
  simp only [processName, h2, h1, h3, h5, h6, eq_self_iff_true, if_true, Bool.false_eq_true,
    if_false]
  rw [h4]
  simp only [h6, eq_self_iff_true, if_true, Bool.false_eq_true, if_false]

/-- C2 witness: a concrete section of declared length 5 with
extra_top_space 2 processed at top 0: the accumulator advances to
(0 + 2) + 5 and the two surviving rows' depths 0.0 and 0.05 are
rewritten to "7" and "2" respectively. -/
theorem claim_C2_witness :
    (processName
       (fun n => if n = "AB" then ["Sample ID\tDepth", "s1\t0.0", "s2\t0.05"] else [])
       [{ name := "AB", length := 5, empty_bottom := 0, empty_top := 0, extra := 2 }]
       0 false 0 "AB" =
      .ok ({ header := Header.init "Sample ID\tDepth",
             lines := [{ header := Header.init "Sample ID\tDepth", parts := ["s1", "7"] },
                       { header := Header.init "Sample ID\tDepth", parts := ["s2", "2"] }],
             min_depth := 0, max_depth := 5 },
           qadd (qadd 0 ((2 : ℤ) : ℚ))
             (({ header := Header.init "Sample ID\tDepth",
                 lines := [{ header := Header.init "Sample ID\tDepth", parts := ["s1", "0.0"] },
                           { header := Header.init "Sample ID\tDepth", parts := ["s2", "0.05"] }],
                 min_depth := 0, max_depth := 5 } : File)).get_thickness)) ∧
    (∃ l1 l2 s q,
      (({ header := Header.init "Sample ID\tDepth",
          lines := [{ header := Header.init "Sample ID\tDepth", parts := ["s1", "0.0"] },
                    { header := Header.init "Sample ID\tDepth", parts := ["s2", "0.05"] }],
          min_depth := 0, max_depth := 5 } : File)).lines.get? 0 = some l1 ∧
      (({ header := Header.init "Sample ID\tDepth",
          lines := [{ header := Header.init "Sample ID\tDepth", parts := ["s1", "7"] },
                    { header := Header.init "Sample ID\tDepth", parts := ["s2", "2"] }],
          min_depth := 0, max_depth := 5 } : File)).lines.get? 0 = some l2 ∧
      l1.get "Depth" = .ok s ∧ parseDec s = some q ∧
      l2.get "Depth" =
        .ok (pyFormatF0 (depthFn (qadd 0 ((2 : ℤ) : ℚ))
               (({ header := Header.init "Sample ID\tDepth",
                   lines := [{ header := Header.init "Sample ID\tDepth", parts := ["s1", "0.0"] },
                             { header := Header.init "Sample ID\tDepth", parts := ["s2", "0.05"] }],
                   min_depth := 0, max_depth := 5 } : File)).get_thickness
               ((0 : ℤ) : ℚ) (floatRound q)))) :=
  ⟨(claim_C2
      (fun n => if n = "AB" then ["Sample ID\tDepth", "s1\t0.0", "s2\t0.05"] else [])
      [{ name := "AB", length := 5, empty_bottom := 0, empty_top := 0, extra := 2 }]
      0 0 "AB"
      { name := "AB", length := 5, empty_bottom := 0, empty_top := 0, extra := 2 }
      { header := Header.init "Sample ID\tDepth",
        lines := [{ header := Header.init "Sample ID\tDepth", parts := ["s1", "0.0"] },
                  { header := Header.init "Sample ID\tDepth", parts := ["s2", "0.05"] }],
        min_depth := 0, max_depth := 5 }
      { header := Header.init "Sample ID\tDepth",
        lines := [{ header := Header.init "Sample ID\tDepth", parts := ["s1", "0.0"] },
                  { header := Header.init "Sample ID\tDepth", parts := ["s2", "0.05"] }],
        min_depth := 0, max_depth := 5 }
      { header := Header.init "Sample ID\tDepth",
        lines := [{ header := Header.init "Sample ID\tDepth", parts := ["s1", "0.0"] },
                  { header := Header.init "Sample ID\tDepth", parts := ["s2", "0.05"] }],
        min_depth := 0, max_depth := 5 }
      { header := Header.init "Sample ID\tDepth",
        lines := [{ header := Header.init "Sample ID\tDepth", parts := ["s1", "7"] },
                  { header := Header.init "Sample ID\tDepth", parts := ["s2", "2"] }],
        min_depth := 0, max_depth := 5 }
      (by decide) (by decide) (by decide) (by decide) (by decide) (by decide)).1,
   (claim_C2
      (fun n => if n = "AB" then ["Sample ID\tDepth", "s1\t0.0", "s2\t0.05"] else [])
      [{ name := "AB", length := 5, empty_bottom := 0, empty_top := 0, extra := 2 }]
      0 0 "AB"
      { name := "AB", length := 5, empty_bottom := 0, empty_top := 0, extra := 2 }
      { header := Header.init "Sample ID\tDepth",
        lines := [{ header := Header.init "Sample ID\tDepth", parts := ["s1", "0.0"] },
                  { header := Header.init "Sample ID\tDepth", parts := ["s2", "0.05"] }],
        min_depth := 0, max_depth := 5 }
      { header := Header.init "Sample ID\tDepth",
        lines := [{ header := Header.init "Sample ID\tDepth", parts := ["s1", "0.0"] },
                  { header := Header.init "Sample ID\tDepth", parts := ["s2", "0.05"] }],
        min_depth := 0, max_depth := 5 }
      { header := Header.init "Sample ID\tDepth",
        lines := [{ header := Header.init "Sample ID\tDepth", parts := ["s1", "0.0"] },
                  { header := Header.init "Sample ID\tDepth", parts := ["s2", "0.05"] }],
        min_depth := 0, max_depth := 5 }
      { header := Header.init "Sample ID\tDepth",
        lines := [{ header := Header.init "Sample ID\tDepth", parts := ["s1", "7"] },
                  { header := Header.init "Sample ID\tDepth", parts := ["s2", "2"] }],
        min_depth := 0, max_depth := 5 }
      (by decide) (by decide) (by decide) (by decide) (by decide) (by decide)).2.2 0
      (by decide)⟩

/-- The assemble loop over a concatenation runs the prefix first and
threads its accumulator into the suffix. -/
theorem assembleLoop_append : ∀ (inputs : String → List String)
    (specs : List SectionSpec) (edge : ℤ) (ms : Bool) (xs ys : List String) (top : ℚ),
    assembleLoop inputs specs edge ms top (xs ++ ys) =
      match assembleLoop inputs specs edge ms top xs with
      | .error e => .error e
      | .ok p =>
        match assembleLoop inputs specs edge ms p.2 ys with
        | .error e => .error e
        | .ok p2 => .ok (p.1 ++ p2.1, p2.2) := by
  intro inputs specs edge ms xs ys
  induction xs with
  | nil =>
    intro top
    cases h : assembleLoop inputs specs edge ms top ys <;>
      simp [assembleLoop, h]
  | cons n xs ih =>
    intro top
    cases hp : processName inputs specs edge ms top n with
    | error e => simp [assembleLoop, hp]
    | ok p =>
      simp only [List.cons_append, assembleLoop, hp]
      cases h1 : assembleLoop inputs specs edge ms p.2 xs with
      | error e => simp [ih p.2, h1]
      | ok p1 =>
        cases h2 : assembleLoop inputs specs edge ms p1.2 ys with
        | error e => simp [ih p.2, h1, h2]
        | ok p2 => simp [ih p.2, h1, h2]

/-- C1: corrected.  When the loop reaches a section whose post-tray-trim
thickness differs from its declared length, the whole assembly aborts
with the AssertionError carrying the expected-versus-actual message (the
message does not name the section), and no output is produced: the error
is raised before anything is written, whatever sections follow. -/
theorem claim_C1 : ∀ (inputs : String → List String) (pre : List SectionSpec)
    (sp : SectionSpec) (rest : List SectionSpec) (ms : Bool) (edge : ℤ)
    (fs1 : List File) (top1 : ℚ) (f0 f1 : File),
    dictLookup (pre ++ sp :: rest) sp.name = some sp →
    assembleLoop inputs (pre ++ sp :: rest) edge ms 0 (pre.map (fun s => s.name)) =
      .ok (fs1, top1) →
    File.read (inputs sp.name) = .ok f0 →
    f0.truncate sp.empty_bottom sp.empty_top = .ok f1 →
    f1.get_thickness ≠ (sp.length : ℚ) →
    assemble_sections inputs (pre ++ sp :: rest) ms edge =
      .error (.assertionError (assertMsg sp.length (truncQ f1.get_thickness))) ∧
    ∀ out, assemble_sections inputs (pre ++ sp :: rest) ms edge ≠ .ok out := by
  intro inputs pre sp rest ms edge fs1 top1 f0 f1 h1 h2 h3 h4 h5
  have hproc : processName inputs (pre ++ sp :: rest) edge ms top1 sp.name =
      .error (.assertionError (assertMsg sp.length (truncQ f1.get_thickness))) := by
    simp only [processName, h3, h1, h4, if_neg h5]
  have hname : (pre ++ sp :: rest).map (fun s => s.name) =
      pre.map (fun s => s.name) ++ sp.name :: rest.map (fun s => s.name) := by
    simp
  have hloop : assembleLoop inputs (pre ++ sp :: rest) edge ms 0
      ((pre ++ sp :: rest).map (fun s => s.name)) =
      .error (.assertionError (assertMsg sp.length (truncQ f1.get_thickness))) := by
    rw [hname, assembleLoop_append, h2]
    simp [assembleLoop, hproc]
  refine ⟨?_, ?_⟩
  · simp only [assemble_sections, hloop]
  · intro out hcontra
    rw [assemble_sections, hloop] at hcontra
    exact absurd hcontra (by simp)

/-- C1 witness: a single section declared 9 units long whose measured
post-trim thickness is 5 aborts the whole assembly with the
expected-versus-actual assertion message, and no output list is
returned. -/
theorem claim_C1_witness :
    assemble_sections
      (fun n => if n = "CD" then ["Sample ID\tDepth", "s\t0.0", "t\t0.05"] else [])
      [{ name := "CD", length := 9, empty_bottom := 0, empty_top := 0, extra := 0 }]
      false 0 =
      .error (.assertionError (assertMsg 9
        (truncQ (({ header := Header.init "Sample ID\tDepth",
                    lines := [{ header := Header.init "Sample ID\tDepth",
                                parts := ["s", "0.0"] },
                              { header := Header.init "Sample ID\tDepth",
                                parts := ["t", "0.05"] }],
                    min_depth := 0, max_depth := 5 } : File)).get_thickness))) ∧
    assemble_sections
      (fun n => if n = "CD" then ["Sample ID\tDepth", "s\t0.0", "t\t0.05"] else [])
      [{ name := "CD", length := 9, empty_bottom := 0, empty_top := 0, extra := 0 }]
      false 0 ≠ .ok ["anything"] := by
  have h := claim_C1
    (fun n => if n = "CD" then ["Sample ID\tDepth", "s\t0.0", "t\t0.05"] else [])
    []
    { name := "CD", length := 9, empty_bottom := 0, empty_top := 0, extra := 0 }
    [] false 0 [] 0
    { header := Header.init "Sample ID\tDepth",
      lines := [{ header := Header.init "Sample ID\tDepth", parts := ["s", "0.0"] },
                { header := Header.init "Sample ID\tDepth", parts := ["t", "0.05"] }],
      min_depth := 0, max_depth := 5 }
    { header := Header.init "Sample ID\tDepth",
      lines := [{ header := Header.init "Sample ID\tDepth", parts := ["s", "0.0"] },
                { header := Header.init "Sample ID\tDepth", parts := ["t", "0.05"] }],
      min_depth := 0, max_depth := 5 }
    (by decide) (by decide) (by decide) (by decide) (by decide)
  exact ⟨h.1, h.2 ["anything"]⟩

/-- C1 counterexample: for the offending section named "AB" the raised
message is exactly "specified length 7 does not equal actual length 5",
which does not contain the section name (it has no letter B at all), so
the claim that the error message reports the offending section's name is
false. -/
theorem claim_C1_cex :
    assemble_sections
      (fun n => if n = "AB" then ["Sample ID\tDepth", "s\t0.0", "t\t0.05"] else [])
      [{ name := "AB", length := 7, empty_bottom := 0, empty_top := 0, extra := 0 }]
      false 0 =
      .error (.assertionError "specified length 7 does not equal actual length 5") ∧
    ('B' ∈ "AB".data) ∧
    ('B' ∈ "specified length 7 does not equal actual length 5".data → False) :=
  ⟨by decide, by decide, by decide⟩

/-- A tab-free character list splits to itself alone. -/
theorem splitTab_single : ∀ (p : List Char), '\t' ∉ p → splitTabChars p = [p] := by
  intro p
  induction p with
  | nil => intro _; rfl
  | cons c cs ih =>
    intro h
    have hc : ¬ c = '\t' := fun hcc => h (by rw [hcc]; exact List.mem_cons_self _ _)
    have h2 := ih (fun hm => h (List.mem_cons_of_mem c hm))
    simp [splitTabChars, hc, h2]

/-- Splitting past a leading tab-free piece peels it off. -/
theorem splitTab_piece : ∀ (p l : List Char), '\t' ∉ p →
    splitTabChars (p ++ '\t' :: l) = p :: splitTabChars l := by
  intro p
  induction p with
  | nil =>
    intro l _
    simp [splitTabChars]
  | cons c cs ih =>
    intro l h
    have hc : ¬ c = '\t' := fun hcc => h (by rw [hcc]; exact List.mem_cons_self _ _)
    have hrec := ih l (fun hm => h (List.mem_cons_of_mem c hm))
    simp [splitTabChars, hc, hrec]

/-- Tab-joining tab-free pieces and splitting again recovers the
pieces. -/
theorem splitTab_join : ∀ (ps : List (List Char)), ps ≠ [] →
    (∀ p ∈ ps, '\t' ∉ p) → splitTabChars (joinTabChars ps) = ps := by
  intro ps
  induction ps with
  | nil => intro h _; exact absurd rfl h
  | cons p qs ih =>
    intro _ hfree
    cases qs with
    | nil =>
      have := splitTab_single p (hfree p (List.mem_cons_self _ _))
      simpa [joinTabChars] using this
    | cons q qs2 =>
      have hrest := ih (by simp) (fun x hx => hfree x (List.mem_cons_of_mem p hx))
      have hp := hfree p (List.mem_cons_self _ _)
      calc splitTabChars (joinTabChars (p :: q :: qs2))
          = splitTabChars (p ++ '\t' :: joinTabChars (q :: qs2)) := rfl
        _ = p :: splitTabChars (joinTabChars (q :: qs2)) := splitTab_piece p _ hp
        _ = p :: q :: qs2 := by rw [hrest]

/-- Every piece produced by the tab split is tab-free. -/
theorem splitTab_no_tab : ∀ (l p : List Char), p ∈ splitTabChars l → '\t' ∉ p := by
  intro l
  induction l with
  | nil =>
    intro p hp
    simp [splitTabChars] at hp
    simp [hp]
  | cons c cs ih =>
    intro p hp
    by_cases hc : c = '\t'
    · rw [hc] at hp
      simp only [splitTabChars, if_pos rfl] at hp
      rcases List.mem_cons.mp hp with rfl | hp2
      · simp
      · exact ih p hp2
    · cases hs : splitTabChars cs with
      | nil =>
        simp only [splitTabChars, if_neg hc, hs] at hp
        rcases List.mem_cons.mp hp with rfl | hp2
        · intro hmem
          rcases List.mem_cons.mp hmem with hq | hq
          · exact hc hq.symm
          · simp at hq
        · simp at hp2
      | cons hpc tpc =>
        simp only [splitTabChars, if_neg hc, hs] at hp
        rcases List.mem_cons.mp hp with rfl | hp2
        · intro hmem
          rcases List.mem_cons.mp hmem with hq | hq
          · exact hc hq.symm
          · exact ih hpc (by rw [hs]; exact List.mem_cons_self _ _) hq
        · exact ih p (by rw [hs]; exact List.mem_cons_of_mem _ hp2) 

/-- Digit characters above the hexadecimal range all print as a star. -/
theorem digitChar_big : ∀ n : ℕ, 16 ≤ n → Nat.digitChar n = '*' := by
  intro n h
  unfold Nat.digitChar
  repeat rw [if_neg (by omega)]

/-- Digit characters are never a tab. -/
theorem digitChar_ne_tab : ∀ n : ℕ, Nat.digitChar n ≠ '\t' := by
  intro n
  rcases Nat.lt_or_ge n 16 with h | h
  · interval_cases n <;> decide
  · rw [digitChar_big n h]; decide

/-- The digit-accumulator loop of Nat.repr only ever adds digit
characters. -/
theorem toDigitsCore_ne_tab : ∀ (fuel n : ℕ) (ds : List Char),
    (∀ c ∈ ds, c ≠ '\t') → ∀ c ∈ Nat.toDigitsCore 10 fuel n ds, c ≠ '\t' := by
  intro fuel
  induction fuel with
  | zero =>
    intro n ds hds
    unfold Nat.toDigitsCore
    exact hds
  | succ f ih =>
    intro n ds hds
    unfold Nat.toDigitsCore
    dsimp only
    have hd : ∀ c ∈ (Nat.digitChar (n % 10) :: ds), c ≠ '\t' := by
      intro c hc
      rcases List.mem_cons.mp hc with rfl | hc2
      · exact digitChar_ne_tab _
      · exact hds c hc2
    split
    · exact hd
    · exact ih (n / 10) _ hd

/-- Decimal representations of naturals contain no tab. -/
theorem natRepr_no_tab : ∀ (n : ℕ), '\t' ∉ (Nat.repr n).data := by
  intro n hmem
  exact toDigitsCore_ne_tab (n + 1) n [] (by simp) _ hmem rfl

/-- The synthetic depth strings contain no tab. -/
theorem fakeDepthStr_no_tab : ∀ (i : ℕ), '\t' ∉ (fakeDepthStr i).data := by
  intro i
  unfold fakeDepthStr
  dsimp only
  split_ifs <;> simp [natRepr_no_tab]

/-- An association list none of whose keys is f has no binding for f. -/
theorem lookup_none_of_keys : ∀ (L : List (String × ℕ)) (f : String),
    (∀ p ∈ L, p.1 ≠ f) → List.lookup f L = none := by
  intro L f
  induction L with
  | nil => intro _; rfl
  | cons a t ih =>
    intro h
    obtain ⟨k, v⟩ := a
    have hk : (f == k) = false :=
      beq_eq_false_iff_ne.mpr (fun hc => h (k, v) (List.mem_cons_self _ _) hc.symm)
    simpa [List.lookup, hk] using ih (fun p hp => h p (List.mem_cons_of_mem _ hp))

/-- The second component of an enumerated entry is a list member. -/
theorem enumFrom_snd_mem : ∀ {α : Type} (k : ℕ) (l : List α) (q : ℕ × α),
    q ∈ List.enumFrom k l → q.2 ∈ l := by
  intro α k l
  induction l generalizing k with
  | nil => intro q hq; simp [List.enumFrom] at hq
  | cons x t ih =>
    intro q hq
    unfold List.enumFrom at hq
    rcases List.mem_cons.mp hq with rfl | hq2
    · exact List.mem_cons_self _ _
    · exact List.mem_cons_of_mem _ (ih (k + 1) q hq2)

/-- Every key of the header map is one of the field names. -/
theorem mkFields_keys : ∀ (names : List String) (p : String × ℕ),
    p ∈ mkFields names → p.1 ∈ names := by
  intro names p hp
  unfold mkFields at hp
  rw [List.mem_reverse] at hp
  obtain ⟨q, hq, rfl⟩ := List.mem_map.mp hp
  exact enumFrom_snd_mem 0 names q (by simpa [List.enum] using hq)

/-- A header built from a line that does not name "Depth" has no Depth
field. -/
theorem header_no_depth : ∀ (line : String), "Depth" ∉ pySplitStrip line →
    (Header.init line).has_field "Depth" = false := by
  intro line h
  have hl : List.lookup "Depth" (mkFields (pySplitStrip line)) = none :=
    lookup_none_of_keys _ _ (fun p hp hc => h (hc ▸ mkFields_keys _ p hp))
  simp [Header.has_field, Header.lookup, Header.init, hl]

/-- C10: confirmed.  For a source whose header lacks a "Depth" field
(and whose kept rows each have as many fields as the header names),
write emits the original stripped header line, while every emitted data
line carries one more tab-separated field than the header names: the
synthesized depth is appended to each row, but add_field extends only
the name-to-index map, not the stored header text. -/
theorem claim_C10 : ∀ (src : List String) (F : File),
    "Depth" ∉ pySplitStrip ((src.head?).getD "") →
    (∀ r ∈ src.drop 1,
      (pySplitStrip r).length = (pySplitStrip ((src.head?).getD "")).length ∨
      (pySplitStrip r).length ≤ 1) →
    File.read src = .ok F →
    F.write.head? = some (pyStrip ((src.head?).getD "")) ∧
    ∀ out ∈ F.write.drop 1,
      (splitTabChars out.data).length = (pySplitStrip ((src.head?).getD "")).length + 1 := by
  intro src F h1 h2 h3
  have hhf := header_no_depth ((src.head?).getD "") h1
  unfold File.read at h3
  dsimp only at h3
  rw [hhf] at h3
  simp only [Bool.false_eq_true, if_false] at h3
  obtain ⟨hlines, hheader⟩ := update_depths_ok _ _ h3
  constructor
  · simp only [File.write, List.head?]
    rw [hheader]
    rfl
  · intro out hout
    simp only [File.write, List.drop] at hout
    rw [hlines] at hout
    simp only [File.fake_depth] at hout
    obtain ⟨l, hl, rfl⟩ := List.mem_map.mp hout
    obtain ⟨p, hp, rfl⟩ := List.mem_map.mp hl
    have hkl := enumFrom_snd_mem 0 _ p (by simpa only [List.enum] using hp)
    obtain ⟨hmem, hpred⟩ := List.mem_filter.mp hkl
    obtain ⟨r, hr, heq⟩ := List.mem_map.mp hmem
    have hparts : p.2.parts = pySplitStrip r := by rw [← heq]; exact rfl
    have hgt : 1 < (pySplitStrip r).length := by
      have hgt0 := of_decide_eq_true hpred
      rwa [hparts] at hgt0
    have hrlen : (pySplitStrip r).length = (pySplitStrip ((src.head?).getD "")).length :=
      (h2 r hr).resolve_right (by omega)
    show (splitTabChars (joinTabChars ((p.2.parts ++ [fakeDepthStr p.1]).map String.data))).length = _
    rw [splitTab_join]
    · simp [hparts, hrlen]
    · simp
    · intro q hq
      rw [List.mem_map] at hq
      obtain ⟨x, hx, rfl⟩ := hq
      rcases List.mem_append.mp hx with hx1 | hx2
      · rw [hparts] at hx1
        obtain ⟨cs, hcs, rfl⟩ := List.mem_map.mp hx1
        simpa using splitTab_no_tab _ cs hcs
      · simp only [List.mem_singleton] at hx2
        rw [hx2]
        exact fakeDepthStr_no_tab p.1

/-- C10 witness: the two-column source with header "A" tab "B" and one
row loads with a synthesized Depth column; write emits the original
two-name header line while the data line splits into three fields. -/
theorem claim_C10_witness :
    (({ header := (Header.init "A\tB").add_field "Depth",
        lines := [{ header := (Header.init "A\tB").add_field "Depth",
                    parts := ["x", "y", "0.0"] }],
        min_depth := 0, max_depth := 0 } : File)).write.head? =
      some (pyStrip ((["A\tB", "x\ty"].head?).getD "")) ∧
    ∀ out ∈ (({ header := (Header.init "A\tB").add_field "Depth",
                lines := [{ header := (Header.init "A\tB").add_field "Depth",
                            parts := ["x", "y", "0.0"] }],
                min_depth := 0, max_depth := 0 } : File)).write.drop 1,
      (splitTabChars out.data).length =
        (pySplitStrip ((["A\tB", "x\ty"].head?).getD "")).length + 1 :=
  claim_C10 ["A\tB", "x\ty"]
    { header := (Header.init "A\tB").add_field "Depth",
      lines := [{ header := (Header.init "A\tB").add_field "Depth",
                  parts := ["x", "y", "0.0"] }],
      min_depth := 0, max_depth := 0 }
    (by decide) (by decide) (by decide)

end Tglc

